import Mathlib

/-!
Verification of the CSV-to-graph normalization core of `osint_viz.py`
(class `GraphToggleViz`): the record parser (`read_csv` row handling),
the IPv4 detector (`is_ip`), the graph builder (`build_graph`) and the
directory batch loop in `main`.

The Python string operations used by the source are modelled explicitly
over `List Char` (restricted to ASCII whitespace, which is all the data
model needs), so that every definition evaluates by kernel reduction.
-/

namespace OsintViz

/-- Python `str.isspace` / default `str.strip()` character class (ASCII part). -/
def isPySpace (c : Char) : Bool :=
  c = ' ' || c = '\t' || c = '\n' || c = '\r' || c = '\x0b' || c = '\x0c'

/-- Drop matching characters from the end of a list (helper for `rstrip`). -/
def dropEndWhile (p : Char → Bool) (l : List Char) : List Char :=
  (l.reverse.dropWhile p).reverse

/-- Python `s.rstrip(chars)`: remove every trailing character satisfying `p`. -/
def pyRstrip (p : Char → Bool) (s : String) : String :=
  String.mk (dropEndWhile p s.data)

/-- Python `s.strip(chars)`: remove every leading and trailing character
satisfying `p` (not just one layer). -/
def pyStripChars (p : Char → Bool) (s : String) : String :=
  String.mk (dropEndWhile p (s.data.dropWhile p))

/-- Python `s.strip()` (whitespace). -/
def pyStripWs (s : String) : String := pyStripChars isPySpace s

/-- Python `s.strip('"')`: all leading/trailing double-quote characters. -/
def pyStripQuotes (s : String) : String := pyStripChars (fun c => c = '"') s

/-- ASCII lower-casing of one character, as Python `str.lower` acts on ASCII. -/
def charLower (c : Char) : Char :=
  if 'A' ≤ c ∧ c ≤ 'Z' then Char.ofNat (c.toNat + 32) else c

/-- Python `s.lower()` (ASCII). -/
def strLower (s : String) : String := String.mk (s.data.map charLower)

/-- Does `l` start with `pat`? -/
def listStartsWith : List Char → List Char → Bool
  | _, [] => true
  | [], _ :: _ => false
  | c :: cs, p :: ps => c == p && listStartsWith cs ps

/-- Python `s.startswith(pat)`. -/
def strStartsWith (s pat : String) : Bool := listStartsWith s.data pat.data

/-- Python `s.endswith(pat)`. -/
def strEndsWith (s pat : String) : Bool :=
  listStartsWith s.data.reverse pat.data.reverse

/-- Does `pat` occur as a contiguous sublist of `l`? -/
def listHasSub : List Char → List Char → Bool
  | [], pat => pat.isEmpty
  | l@(_ :: t), pat => listStartsWith l pat || listHasSub t pat

/-- Python substring test `pat in s`. -/
def strContains (s pat : String) : Bool := listHasSub s.data pat.data

/-- Python character test `c in s` (used for `" " in target`, `"=" in value`). -/
def strHasChar (s : String) (c : Char) : Bool := s.data.contains c

/-- Digit tail of a Python integer literal: digits, with a single `_`
allowed only between digits (Python `int()` accepts `"2_5"`). -/
def pyDigitsCore : List Char → Nat → Option Nat
  | [], acc => some acc
  | '_' :: c :: cs, acc =>
    if c.isDigit then pyDigitsCore cs (acc * 10 + (c.toNat - 48)) else none
  | ['_'], _ => none
  | c :: cs, acc =>
    if c.isDigit then pyDigitsCore cs (acc * 10 + (c.toNat - 48)) else none

/-- Nonempty digit string (first char must be a digit). -/
def pyUInt : List Char → Option Nat
  | [] => none
  | c :: cs => if c.isDigit then pyDigitsCore cs (c.toNat - 48) else none

/-- Model of Python `int(s)`: surrounding whitespace, optional sign, digits.
`none` models a raised `ValueError`. -/
def pyInt (s : String) : Option Int :=
  let cs := dropEndWhile isPySpace (s.data.dropWhile isPySpace)
  match cs with
  | '+' :: rest => (pyUInt rest).map Int.ofNat
  | '-' :: rest => (pyUInt rest).map (fun n => -(Int.ofNat n))
  | rest => (pyUInt rest).map Int.ofNat

/-- Python `s.split(sep)` for a one-character separator (keeps empty pieces). -/
def charSplitGo (sep : Char) : List Char → List Char → List String
  | [], acc => [String.mk acc.reverse]
  | c :: cs, acc =>
    if c = sep then String.mk acc.reverse :: charSplitGo sep cs []
    else charSplitGo sep cs (c :: acc)

/-- Python `s.split(sep)` with a one-character separator. -/
def charSplit (sep : Char) (s : String) : List String := charSplitGo sep s.data []

/-- One octet test of `is_ip`: `0 <= int(p) <= 255`, a parse failure standing
for the `except` branch returning `False`. -/
def ipOctet (p : String) : Bool :=
  match pyInt p with
  | some n => decide (0 ≤ n ∧ n ≤ 255)
  | none => false

/-- `GraphToggleViz.is_ip`: split on `.`; exactly four parts, each an integer
in `[0, 255]`; any parse failure yields `False` via the `try/except`. -/
def is_ip (s : String) : Bool :=
  let parts := charSplit '.' s
  if parts.length = 4 then parts.all ipOctet else false

/-- Python `s.split()` (whitespace runs, no empty tokens): worker. -/
def pySplitWsGo : List Char → List Char → List String
  | [], acc => if acc.isEmpty then [] else [String.mk acc.reverse]
  | c :: cs, acc =>
    if isPySpace c then
      if acc.isEmpty then pySplitWsGo cs []
      else String.mk acc.reverse :: pySplitWsGo cs []
    else pySplitWsGo cs (c :: acc)

/-- Python `s.split()` with no separator: split on whitespace runs. -/
def pySplitWs (s : String) : List String := pySplitWsGo s.data []

/-- Python `s.split(maxsplit=1)`: first whitespace-delimited token, then the
remainder after the separating whitespace run, kept verbatim. -/
def pySplitMax1 (s : String) : List String :=
  let cs := s.data.dropWhile isPySpace
  if cs.isEmpty then []
  else
    let tok := cs.takeWhile (fun c => !(isPySpace c))
    let rest := (cs.dropWhile (fun c => !(isPySpace c))).dropWhile isPySpace
    if rest.isEmpty then [String.mk tok] else [String.mk tok, String.mk rest]

/-- First token of `s.split(maxsplit=1)` (`parts[0]`). -/
def pyTok0 (s : String) : String := (pySplitMax1 s).getD 0 ""

/-- Second token of `s.split(maxsplit=1)` (`parts[1]`). -/
def pyTok1 (s : String) : String := (pySplitMax1 s).getD 1 ""

/-- Re-join split pieces with the separator (for modelling `maxsplit`). -/
def strIntercalate (sep : Char) : List String → String
  | [] => ""
  | [x] => x
  | x :: xs => x ++ String.mk [sep] ++ strIntercalate sep xs

/-- Python `s.split(sep, 1)` for a one-character separator. -/
def pySplit1 (sep : Char) (s : String) : List String :=
  match charSplit sep s with
  | [] => [s]
  | [x] => [x]
  | x :: xs => [x, strIntercalate sep xs]

/-- Python `s.split(sep, 2)` for a one-character separator. -/
def pySplit2 (sep : Char) (s : String) : List String :=
  match charSplit sep s with
  | [] => [s]
  | [x] => [x]
  | [x, y] => [x, y]
  | x :: y :: xs => [x, y, strIntercalate sep xs]

/-- The value TXT dispatch runs on: `target.strip().strip('"').strip()`. -/
def unquote (t : String) : String := pyStripWs (pyStripQuotes (pyStripWs t))

/-- One normalized edge, the tuple
`(domain, target, rtype, mx_priority, txt_value)` appended to `self.edges`. -/
structure Edge where
  domain : String
  target : String
  rtype : String
  priority : Option String
  txt_value : Option String
deriving DecidableEq

/-- SPF include extraction: every whitespace token of the unquoted value that
starts with `include:`, keeping the remainder after the first `include:`. -/
def spfIncludes (u : String) : List String :=
  (pySplitWs u).filterMap fun part =>
    if strStartsWith part "include:" then
      some (pyStripWs (String.mk (part.data.drop 8)))
    else none

/-- The non-SPF TXT rewrite chain (dmarc / dkim / `=` / zoom_verify), given the
stripped domain, the unquoted value `u` and the original stripped target.
Returns the rewritten target and the `txt_value`. -/
def txt_rewrite (domain u target : String) : String × Option String :=
  if strContains (strLower u) "v=dmarc1" then
    ("_dmarc." ++ domain, some u)
  else if strContains (strLower u) "v=dkim1" ∨ strContains (strLower domain) "_domainkey" then
    (domain, some u)
  else if strHasChar u '=' then
    match pySplit1 '=' u with
    | [a, b] => (pyStripQuotes (pyStripWs a), some (pyStripQuotes (pyStripWs b)))
    | _ => (target, none)
  else if strStartsWith (strLower u) "zoom_verify_" then
    match pySplit2 '_' u with
    | [a, b, c] => (a ++ "_" ++ b, some (pyStripQuotes (pyStripWs c)))
    | _ => (target, none)
  else (target, none)

/-- Trailing-dot normalization applied before the generic append:
`if not self.is_ip(target): target = target.rstrip('.')`. -/
def strip_trailing (t : String) : String :=
  if is_ip t then t else pyRstrip (fun c => c = '.') t

/-- One row of `read_csv` after the `DictReader` field extraction: the rules on
lines 39–89 of `osint_viz.py`. The `.error` branch models the `IndexError`
Python would raise on `parts[1]` (provably unreachable under the guard). -/
def read_row (d0 r0 t0 : String) : Except String (List Edge) :=
  let domain := pyStripWs d0
  let rtype := strLower (pyStripWs r0)
  let target := pyStripWs t0
  if rtype = "mx" ∧ strHasChar target ' ' = true then
    match pySplitMax1 target with
    | [p0, p1] =>
      .ok [⟨domain, strip_trailing (strLower (pyStripWs p1)), rtype,
            some (pyStripWs p0), none⟩]
    | _ => .error "IndexError"
  else if rtype = "txt" then
    let u := unquote target
    if strStartsWith (strLower u) "v=spf1" then
      let incs := spfIncludes u
      .ok (if incs.isEmpty then [⟨domain, "SPF", rtype, none, some u⟩]
           else incs.map fun h => ⟨domain, h, rtype, none, some u⟩)
    else
      let p := txt_rewrite domain u target
      .ok [⟨domain, strip_trailing p.1, rtype, none, p.2⟩]
  else
    .ok [⟨domain, strip_trailing target, rtype, none, none⟩]

/-- One CSV row as `csv.DictReader` hands it over; a `none` field models a
missing column, on which `row[...]` raises `KeyError`. -/
structure RawRow where
  domain : Option String
  record_type : Option String
  target : Option String
deriving DecidableEq

/-- `row[key]`: the value, or a raised `KeyError`. -/
def getField : Option String → Except String String
  | some v => .ok v
  | none => .error "KeyError"

/-- The whole `read_csv` loop over the parsed rows: edges accumulate in order;
the first raised error aborts the file. -/
def read_rows : List RawRow → Except String (List Edge)
  | [] => .ok []
  | r :: rs =>
    match getField r.domain with
    | .error e => .error e
    | .ok d =>
      match getField r.record_type with
      | .error e => .error e
      | .ok rt =>
        match getField r.target with
        | .error e => .error e
        | .ok tg =>
          match read_row d rt tg with
          | .error e => .error e
          | .ok es =>
            match read_rows rs with
            | .error e => .error e
            | .ok rest => .ok (es ++ rest)

/-- The directory branch of `main`: process each `.csv` file in order. There
is no `try/except` around `GraphToggleViz(...).run()`, so a raised error
propagates out of the `for` loop: the result is the outputs of the files
processed before the failure, plus the error that escaped (if any). -/
def runBatch : List (String × List RawRow) → List (String × List Edge) × Option String
  | [] => ([], none)
  | (name, rows) :: fs =>
    if strEndsWith (strLower name) ".csv" then
      match read_rows rows with
      | .error e => ([], some e)
      | .ok out =>
        let rest := runBatch fs
        ((name, out) :: rest.1, rest.2)
    else runBatch fs

/-- Graph state built by `build_graph`: node `type` attributes (keyed by the
node's string), and the attribute of the unique undirected edge of each pair
(`nx.Graph` collapses parallel edges; re-adding overwrites the attributes). -/
structure GState where
  nodeType : String → Option String
  edgeAttr : String → String → Option (String × Option String × Option String)

/-- The empty `nx.Graph()`. -/
def emptyG : GState := ⟨fun _ => none, fun _ _ => none⟩

/-- `G.add_node(n, type=t)`: networkx updates the attribute even when the node
already exists. -/
def setType (g : GState) (n t : String) : GState :=
  ⟨fun s => if s = n then some t else g.nodeType s, g.edgeAttr⟩

/-- `G.add_edge(u, v, ...)` on an undirected graph: overwrite the pair's
attributes, symmetrically. -/
def setEdge (g : GState) (u v : String)
    (a : String × Option String × Option String) : GState :=
  ⟨g.nodeType,
   fun x y => if (x = u ∧ y = v) ∨ (x = v ∧ y = u) then some a else g.edgeAttr x y⟩

/-- The target-node handling of one `build_graph` iteration: create the node
(typed `a` for an IP-shaped string, else the record type), or apply the
upgrade rule to an existing non-IP node. -/
def updateTarget (g : GState) (e : Edge) : GState :=
  match g.nodeType e.target with
  | none => setType g e.target (if is_ip e.target then "a" else e.rtype)
  | some old =>
    if is_ip e.target then g
    else if old = "a" ∧ e.rtype = "cname" then setType g e.target "cname"
    else g

/-- One iteration of the `build_graph` loop. -/
def stepG (g : GState) (e : Edge) : GState :=
  setEdge (updateTarget (setType g e.domain "domain") e)
    e.domain e.target (e.rtype, e.priority, e.txt_value)

/-- Fold `build_graph` over a list of edges starting from `g`. -/
def buildFrom (g : GState) : List Edge → GState
  | [] => g
  | e :: es => buildFrom (stepG g e) es

/-- `GraphToggleViz.build_graph` applied to `self.edges`. -/
def build_graph (es : List Edge) : GState := buildFrom emptyG es

/-! Definitions written from the claims' words (never used by the embedding
above), to be compared with the code's behaviour. -/

/-- Claimed TXT unquoting (claim C6): strip surrounding whitespace, then
exactly ONE layer of surrounding double quotes, then whitespace. -/
def unquote_one (t : String) : String :=
  let s := pyStripWs t
  let l := s.data
  if 2 ≤ l.length ∧ l.head? = some '"' ∧ l.getLast? = some '"' then
    pyStripWs (String.mk (l.drop 1).dropLast)
  else s

/-- Claimed trailing-dot rule (claim C2): strip exactly one trailing dot. -/
def pyRstripOneDot (t : String) : String :=
  if strEndsWith t "." then String.mk t.data.dropLast else t

/-- Claimed MX split (claim C8): split at the first space character. -/
def splitFirstSpace (s : String) : String × String :=
  (String.mk (s.data.takeWhile (fun c => !(c = ' '))),
   String.mk ((s.data.dropWhile (fun c => !(c = ' '))).drop 1))

/-! Helper lemmas about the modelled Python string primitives. -/

lemma dropWhile_eq_self_of_head? {p : Char → Bool} {l : List Char}
    (h : ∀ c, l.head? = some c → p c = false) : l.dropWhile p = l := by
  cases l with
  | nil => rfl
  | cons c cs => simp [List.dropWhile_cons, h c rfl]

lemma head?_dropWhile_false (p : Char → Bool) (l : List Char) :
    ∀ c, (l.dropWhile p).head? = some c → p c = false := by
  intro c hc
  have h := List.head?_dropWhile_not p l
  rw [hc] at h
  exact h

/-- Structure of `rstrip`: the input is the output followed by a run of
stripped characters, and the output no longer ends in one. -/
lemma dropEndWhile_spec (p : Char → Bool) (l : List Char) :
    l = dropEndWhile p l ++ (l.reverse.takeWhile p).reverse ∧
    (∀ c ∈ (l.reverse.takeWhile p).reverse, p c = true) ∧
    (∀ c, (dropEndWhile p l).getLast? = some c → p c = false) := by
  refine ⟨?_, ?_, ?_⟩
  · conv_lhs => rw [← l.reverse_reverse, ← List.takeWhile_append_dropWhile p l.reverse]
    rw [List.reverse_append]
    rfl
  · intro c hc
    rw [List.mem_reverse] at hc
    exact List.mem_takeWhile_imp hc
  · intro c hc
    rw [dropEndWhile, List.getLast?_reverse] at hc
    exact head?_dropWhile_false p l.reverse c hc

lemma strEndsWith_dot_eq_false {s : String}
    (h : ∀ c, s.data.getLast? = some c → c ≠ '.') :
    strEndsWith s "." = false := by
  unfold strEndsWith
  cases hr : s.data.reverse with
  | nil => rfl
  | cons c cs =>
    have hlast : s.data.getLast? = some c := by
      rw [← List.head?_reverse, hr]; rfl
    have hc := h c hlast
    show (c == '.' && listStartsWith cs []) = false
    simp [hc]

/-- C2 (amended): the generic normalization strips ALL trailing `.` characters
from a non-IP target — `rstrip('.')` removes every one, not exactly one — and
leaves an IPv4-literal target untouched. The stripped target never ends in a
dot, and the original target is the stripped one followed by a run of dots. -/
theorem trailing_dot_strips_all (t : String) :
    (is_ip t = true → strip_trailing t = t) ∧
    (is_ip t = false →
      strEndsWith (strip_trailing t) "." = false ∧
      ∃ k, t = strip_trailing t ++ String.mk (List.replicate k '.')) := by
  constructor
  · intro h
    simp [strip_trailing, h]
  · intro h
    have hst : strip_trailing t = pyRstrip (fun c => c = '.') t := by
      simp [strip_trailing, h]
    obtain ⟨hdec, hall, hlast⟩ := dropEndWhile_spec (fun c => c = '.') t.data
    refine ⟨?_, ?_⟩
    · rw [hst]
      apply strEndsWith_dot_eq_false
      intro c hc heq
      have := hlast c hc
      simp [heq] at this
    · refine ⟨(t.data.reverse.takeWhile (fun c => c = '.')).reverse.length, ?_⟩
      apply String.ext
      rw [String.data_append, hst]
      have hrepl :
          (t.data.reverse.takeWhile (fun c => c = '.')).reverse =
            List.replicate (t.data.reverse.takeWhile (fun c => c = '.')).reverse.length '.' := by
        apply List.eq_replicate_of_mem
        intro b hb
        have := hall b hb
        simpa using this
      rw [← hrepl]
      exact hdec

/-- Witness for C2's amended theorem at the concrete non-IP target `"a.."`. -/
theorem trailing_dot_strips_all_inst :
    strEndsWith (strip_trailing "a..") "." = false :=
  ((trailing_dot_strips_all "a..").2 (by decide)).1

/-- C2 counterexample: on the `ns` record target `"n.example.com.."` the
parser emits target `"n.example.com"` — both trailing dots are gone — while
the claimed exactly-one-dot strip would keep `"n.example.com."`. -/
theorem one_dot_strip_cex :
    read_row "x" "ns" "n.example.com.." =
      .ok [⟨"x", "n.example.com", "ns", none, none⟩] ∧
    pyRstripOneDot "n.example.com.." = "n.example.com." ∧
    ("n.example.com" : String) ≠ "n.example.com." :=
  ⟨rfl, by decide, by decide⟩

/-! Claim C7: specification of `is_ip`. -/

lemma ipOctet_iff (p : String) :
    ipOctet p = true ↔ ∃ n : Int, pyInt p = some n ∧ 0 ≤ n ∧ n ≤ 255 := by
  unfold ipOctet
  cases hp : pyInt p with
  | none =>
    simp only [hp]
    constructor
    · intro h; cases h
    · rintro ⟨n, hn, -⟩; cases hn
  | some n =>
    simp only [hp, decide_eq_true_eq]
    constructor
    · intro h; exact ⟨n, rfl, h⟩
    · rintro ⟨m, hm, h⟩
      cases Option.some.inj hm
      exact h

/-- C7: `is_ip s` is true exactly when `s` splits on `.` into four tokens,
each parsing as a Python integer in `[0, 255]`; every other shape gives
`false` (the function is total, so it never raises). -/
theorem is_ip_spec (s : String) :
    is_ip s = true ↔
      ((charSplit '.' s).length = 4 ∧
       ∀ p ∈ charSplit '.' s, ∃ n : Int, pyInt p = some n ∧ 0 ≤ n ∧ n ≤ 255) := by
  unfold is_ip
  by_cases h : (charSplit '.' s).length = 4
  · simp [h, List.all_eq_true, ipOctet_iff]
  · simp [h]

/-- Witness for C7 at the IPv4 literal `"10.0.0.255"`. -/
theorem is_ip_spec_inst :
    (charSplit '.' "10.0.0.255").length = 4 ∧
      ∀ p ∈ charSplit '.' "10.0.0.255",
        ∃ n : Int, pyInt p = some n ∧ 0 ≤ n ∧ n ≤ 255 :=
  (is_ip_spec "10.0.0.255").mp (by decide)

/-! Helper lemmas about the graph builder. -/

lemma nodeType_setType (g : GState) (n t s : String) :
    (setType g n t).nodeType s = if s = n then some t else g.nodeType s := rfl

lemma nodeType_stepG (g : GState) (e : Edge) (n : String) :
    (stepG g e).nodeType n = (updateTarget (setType g e.domain "domain") e).nodeType n := rfl

lemma updateTarget_ne (g : GState) (e : Edge) (n : String) (hn : n ≠ e.target) :
    (updateTarget g e).nodeType n = g.nodeType n := by
  unfold updateTarget
  cases hg : g.nodeType e.target with
  | none => simp [nodeType_setType, hn]
  | some old =>
    by_cases hip : is_ip e.target = true
    · simp [hip]
    · by_cases hup : old = "a" ∧ e.rtype = "cname"
      · simp [hip, hup, nodeType_setType, hn]
      · simp [hip, hup]

lemma stepG_source_domain (g : GState) (e : Edge) :
    (stepG g e).nodeType e.domain = some "domain" := by
  rw [nodeType_stepG]
  by_cases ht : e.domain = e.target
  · have hsc : (setType g e.domain "domain").nodeType e.target = some "domain" := by
      rw [← ht, nodeType_setType, if_pos rfl]
    unfold updateTarget
    rw [hsc]
    by_cases hip : is_ip e.target = true
    · simp [hip, nodeType_setType]
    · have hno : ¬("domain" = "a" ∧ e.rtype = "cname") := fun hh => absurd hh.1 (by decide)
      simp [hip, hno, nodeType_setType]
  · rw [updateTarget_ne _ _ _ ht]
    rw [nodeType_setType, if_pos rfl]

lemma stepG_preserves (g : GState) (e : Edge) (n t : String)
    (h : g.nodeType n = some t) :
    (stepG g e).nodeType n = some t
    ∨ (t = "a" ∧ (stepG g e).nodeType n = some "cname"
        ∧ e.target = n ∧ e.rtype = "cname" ∧ is_ip n = false)
    ∨ ((stepG g e).nodeType n = some "domain" ∧ e.domain = n) := by
  by_cases hd : e.domain = n
  · exact Or.inr (Or.inr ⟨hd ▸ stepG_source_domain g e, hd⟩)
  · have hg1 : (setType g e.domain "domain").nodeType n = some t := by
      rw [nodeType_setType, if_neg (fun hh => hd hh.symm)]
      exact h
    by_cases ht : e.target = n
    · subst ht
      have hsc : (setType g e.domain "domain").nodeType e.target = some t := hg1
      by_cases hip : is_ip e.target = true
      · left
        rw [nodeType_stepG]
        unfold updateTarget
        rw [hsc]
        simp [hip, hg1]
      · by_cases hup : t = "a" ∧ e.rtype = "cname"
        · right; left
          refine ⟨hup.1, ?_, rfl, hup.2, by simpa using hip⟩
          rw [nodeType_stepG]
          unfold updateTarget
          rw [hsc]
          simp [hip, hup, nodeType_setType]
        · left
          rw [nodeType_stepG]
          unfold updateTarget
          rw [hsc]
          simp [hip, hup, hg1]
    · left
      rw [nodeType_stepG, updateTarget_ne _ _ _ (fun hh => ht hh.symm)]
      exact hg1

lemma buildFrom_preserves_domain (g : GState) (es : List Edge) (n : String)
    (h : g.nodeType n = some "domain") :
    (buildFrom g es).nodeType n = some "domain" := by
  induction es generalizing g with
  | nil => exact h
  | cons e es ih =>
    apply ih
    rcases stepG_preserves g e n "domain" h with h1 | ⟨ha, -⟩ | ⟨h1, -⟩
    · exact h1
    · exact absurd ha (by decide)
    · exact h1

lemma buildFrom_source_domain (g : GState) (es : List Edge) (n : String)
    (h : ∃ e ∈ es, e.domain = n) :
    (buildFrom g es).nodeType n = some "domain" := by
  induction es generalizing g with
  | nil =>
    rcases h with ⟨e, he, -⟩
    cases he
  | cons e es ih =>
    rcases h with ⟨e', he', hd⟩
    rcases List.mem_cons.mp he' with rfl | hmem
    · exact buildFrom_preserves_domain _ es n (hd ▸ stepG_source_domain g e')
    · exact ih (stepG g e) ⟨e', hmem, hd⟩

/-- C10: every string occurring as an edge source ends up typed `domain` —
`G.add_node(domain, type="domain")` overwrites any earlier type, and no later
event can change a `domain`-typed node again. -/
theorem edge_sources_typed_domain (es : List Edge) (n : String)
    (h : ∃ e ∈ es, e.domain = n) :
    (build_graph es).nodeType n = some "domain" :=
  buildFrom_source_domain emptyG es n h

/-- Witness for C10: `"y"` is created as an `ns` target, then occurs as a
source, and is finally typed `domain`. -/
theorem edge_sources_typed_domain_inst :
    (build_graph [⟨"x", "y", "ns", none, none⟩,
                  ⟨"y", "z", "ns", none, none⟩]).nodeType "y" = some "domain" :=
  edge_sources_typed_domain _ "y" ⟨⟨"y", "z", "ns", none, none⟩, by decide, rfl⟩

/-- C1 (amended): over any run of the builder, an assigned node type can only
stay unchanged, be upgraded `a` → `cname` by a later `cname` edge targeting
the node, or be overwritten to `domain` because the node occurs as an edge's
source — the source case does change an existing type, contrary to the
original claim. -/
theorem node_type_monotone (g : GState) (es : List Edge) (n t s : String)
    (h0 : g.nodeType n = some t)
    (h1 : (buildFrom g es).nodeType n = some s) :
    s = t
    ∨ (t = "a" ∧ s = "cname" ∧ ∃ e ∈ es, e.target = n ∧ e.rtype = "cname")
    ∨ (s = "domain" ∧ (t = "domain" ∨ ∃ e ∈ es, e.domain = n)) := by
  induction es generalizing g t with
  | nil =>
    left
    rw [show buildFrom g [] = g from rfl, h0] at h1
    exact (Option.some.inj h1).symm
  | cons e es ih =>
    have h1' : (buildFrom (stepG g e) es).nodeType n = some s := h1
    rcases stepG_preserves g e n t h0 with hA | ⟨hta, hA, htg, hrt, -⟩ | ⟨hA, hsrc⟩
    · rcases ih (stepG g e) t hA h1' with h | ⟨ha, hc, e', hm, hp⟩ | ⟨hdom, hrest⟩
      · exact Or.inl h
      · exact Or.inr (Or.inl ⟨ha, hc, e', List.mem_cons_of_mem _ hm, hp⟩)
      · rcases hrest with h3 | ⟨e', hm, hp⟩
        · exact Or.inr (Or.inr ⟨hdom, Or.inl h3⟩)
        · exact Or.inr (Or.inr ⟨hdom, Or.inr ⟨e', List.mem_cons_of_mem _ hm, hp⟩⟩)
    · rcases ih (stepG g e) "cname" hA h1' with h | ⟨hbad, -⟩ | ⟨hdom, hrest⟩
      · exact Or.inr (Or.inl ⟨hta, h, e, List.mem_cons_self e es, htg, hrt⟩)
      · exact absurd hbad (by decide)
      · rcases hrest with h3 | ⟨e', hm, hp⟩
        · exact absurd h3 (by decide)
        · exact Or.inr (Or.inr ⟨hdom, Or.inr ⟨e', List.mem_cons_of_mem _ hm, hp⟩⟩)
    · rcases ih (stepG g e) "domain" hA h1' with h | ⟨hbad, -⟩ | ⟨hdom, -⟩
      · exact Or.inr (Or.inr ⟨h, Or.inr ⟨e, List.mem_cons_self e es, hsrc⟩⟩)
      · exact absurd hbad (by decide)
      · exact Or.inr (Or.inr ⟨hdom, Or.inr ⟨e, List.mem_cons_self e es, hsrc⟩⟩)

/-- Witness for C1's amended theorem: node `"y"` typed `ns` after the first
edge keeps type `ns` over a later run in which it is only a target. -/
theorem node_type_monotone_inst :
    ("ns" : String) = "ns"
    ∨ (("ns" : String) = "a" ∧ ("ns" : String) = "cname"
        ∧ ∃ e ∈ [(⟨"d", "y", "cname", none, none⟩ : Edge)], e.target = "y" ∧ e.rtype = "cname")
    ∨ (("ns" : String) = "domain"
        ∧ (("ns" : String) = "domain"
           ∨ ∃ e ∈ [(⟨"d", "y", "cname", none, none⟩ : Edge)], e.domain = "y")) :=
  node_type_monotone (build_graph [⟨"x", "y", "ns", none, none⟩])
    [⟨"d", "y", "cname", none, none⟩] "y" "ns" "ns" (by decide) (by decide)

/-- C1 counterexample: `"y"` is created as an `ns`-typed target, then occurs
as the source of the next edge; its type is overwritten to `domain`, although
no `a` → `cname` upgrade is involved — the claimed invariant fails. -/
theorem node_type_overwritten_cex :
    (build_graph [⟨"x", "y", "ns", none, none⟩]).nodeType "y" = some "ns" ∧
    (build_graph [⟨"x", "y", "ns", none, none⟩,
                  ⟨"y", "z", "ns", none, none⟩]).nodeType "y" = some "domain" ∧
    ("domain" : String) ≠ "ns" :=
  ⟨by decide, by decide, by decide⟩

/-- C3 (amended): the `a` → `cname` upgrade happens only for an `a`-typed
node whose string is NOT an IPv4 literal (the `not self.is_ip(target)` guard);
an IPv4-literal `a` node is never retyped by a `cname` edge, and a `cname`
node targeted later never downgrades — all provided the node is not also that
edge's source. -/
theorem cname_upgrade_rule (g : GState) (e : Edge) (n : String)
    (hs : e.domain ≠ n) :
    (g.nodeType n = some "a" → is_ip n = false → e.target = n → e.rtype = "cname" →
      (stepG g e).nodeType n = some "cname")
    ∧ (g.nodeType n = some "a" → is_ip n = true →
      (stepG g e).nodeType n = some "a")
    ∧ (g.nodeType n = some "cname" → (stepG g e).nodeType n = some "cname") := by
  refine ⟨?_, ?_, ?_⟩
  · intro ha hip ht hr
    rcases stepG_preserves g e n "a" ha with h1 | ⟨-, h1, -⟩ | ⟨-, hdom⟩
    · rw [nodeType_stepG] at h1 ⊢
      subst ht
      have hsc : (setType g e.domain "domain").nodeType e.target = some "a" := by
        rw [nodeType_setType, if_neg (fun hh => hs hh.symm)]
        exact ha
      unfold updateTarget at h1 ⊢
      rw [hsc] at h1 ⊢
      simp [hip, hr, nodeType_setType] at h1 ⊢
    · exact h1
    · exact absurd hdom hs
  · intro ha hip
    rcases stepG_preserves g e n "a" ha with h1 | ⟨-, -, -, -, hbad⟩ | ⟨-, hdom⟩
    · exact h1
    · rw [hip] at hbad
      cases hbad
    · exact absurd hdom hs
  · intro hc
    rcases stepG_preserves g e n "cname" hc with h1 | ⟨hbad, -⟩ | ⟨-, hdom⟩
    · exact h1
    · exact absurd hbad (by decide)
    · exact absurd hdom hs

/-- Witness for C3's amended theorem: a non-IP `a` node upgraded to `cname`. -/
theorem cname_upgrade_rule_inst :
    (stepG (build_graph [⟨"x", "host.example", "a", none, none⟩])
      ⟨"y", "host.example", "cname", none, none⟩).nodeType "host.example" = some "cname" :=
  (cname_upgrade_rule (build_graph [⟨"x", "host.example", "a", none, none⟩])
    ⟨"y", "host.example", "cname", none, none⟩ "host.example"
    (by decide)).1 (by decide) (by decide) rfl rfl

/-- C3 counterexample: the node `"1.2.3.4"` is created with type `a` from an
IPv4-looking target; a later `cname` edge targeting the same string does NOT
retype it — the `not self.is_ip(target)` guard blocks the claimed upgrade. -/
theorem ip_node_not_upgraded_cex :
    (build_graph [⟨"x", "1.2.3.4", "a", none, none⟩,
                  ⟨"y", "1.2.3.4", "cname", none, none⟩]).nodeType "1.2.3.4" = some "a" ∧
    ("a" : String) ≠ "cname" :=
  ⟨by decide, by decide⟩

/-- C4 evidence: the directory loop has no `try`/`except`, so the `KeyError`
from the first file (missing `domain` column) escapes the loop and the second
file — which on its own parses fine — is never attempted. -/
theorem batch_aborts_on_first_error :
    runBatch [("a.csv", [⟨none, some "ns", some "h"⟩]),
              ("b.csv", [⟨some "d", some "ns", some "h"⟩])] = ([], some "KeyError") ∧
    read_rows [⟨some "d", some "ns", some "h"⟩] = .ok [⟨"d", "h", "ns", none, none⟩] :=
  ⟨rfl, rfl⟩

/-- C5: a TXT record whose unquoted value starts with `v=spf1`
(case-insensitively) yields one `txt` edge per `include:` token, or a single
edge to the literal `SPF` node when there is none; the `continue` skips the
trailing-dot step, so the include hosts are emitted verbatim. -/
theorem spf_rule (d r t : String)
    (hr : strLower (pyStripWs r) = "txt")
    (hs : strStartsWith (strLower (unquote (pyStripWs t))) "v=spf1" = true) :
    read_row d r t =
      .ok (if (spfIncludes (unquote (pyStripWs t))).isEmpty then
             [⟨pyStripWs d, "SPF", "txt", none, some (unquote (pyStripWs t))⟩]
           else (spfIncludes (unquote (pyStripWs t))).map
             fun h => ⟨pyStripWs d, h, "txt", none, some (unquote (pyStripWs t))⟩) := by
  simp only [read_row, hr, hs]
  simp

/-- Witness for C5: two includes, the first keeping its trailing dot. -/
theorem spf_rule_inst :
    read_row "d" "txt" "v=spf1 include:a.example.com. include:b.example.net ~all" =
      .ok [⟨"d", "a.example.com.", "txt", none,
            some "v=spf1 include:a.example.com. include:b.example.net ~all"⟩,
           ⟨"d", "b.example.net", "txt", none,
            some "v=spf1 include:a.example.com. include:b.example.net ~all"⟩] :=
  (spf_rule "d" "txt" "v=spf1 include:a.example.com. include:b.example.net ~all"
    (by decide) (by decide)).trans rfl

/-- C9: a non-SPF TXT value containing `v=dmarc1` (case-insensitively) has its
target rewritten to `_dmarc.<domain>` with the full unquoted value recorded as
the edge's `txt_value`. -/
theorem dmarc_rule (d r t : String)
    (hr : strLower (pyStripWs r) = "txt")
    (hspf : strStartsWith (strLower (unquote (pyStripWs t))) "v=spf1" = false)
    (hd : strContains (strLower (unquote (pyStripWs t))) "v=dmarc1" = true) :
    txt_rewrite (pyStripWs d) (unquote (pyStripWs t)) (pyStripWs t)
        = ("_dmarc." ++ pyStripWs d, some (unquote (pyStripWs t)))
    ∧ read_row d r t =
        .ok [⟨pyStripWs d, strip_trailing ("_dmarc." ++ pyStripWs d), "txt", none,
              some (unquote (pyStripWs t))⟩] := by
  have h1 : txt_rewrite (pyStripWs d) (unquote (pyStripWs t)) (pyStripWs t)
      = ("_dmarc." ++ pyStripWs d, some (unquote (pyStripWs t))) := by
    unfold txt_rewrite
    rw [if_pos hd]
  refine ⟨h1, ?_⟩
  simp only [read_row, hr, hspf, h1]
  simp

/-- Witness for C9 at the spec's own example: domain `example.com`, value
`v=DMARC1; p=reject`. -/
theorem dmarc_rule_inst :
    read_row "example.com" "txt" "\"v=DMARC1; p=reject\"" =
      .ok [⟨"example.com", "_dmarc.example.com", "txt", none,
            some "v=DMARC1; p=reject"⟩] :=
  ((dmarc_rule "example.com" "txt" "\"v=DMARC1; p=reject\""
    (by decide) (by decide) (by decide)).2).trans rfl

/-! Boundary properties of the Python strips, and the unquoting analysis. -/

lemma pyStripChars_last (p : Char → Bool) (s : String) :
    ∀ c, (pyStripChars p s).data.getLast? = some c → p c = false := by
  intro c hc
  have hc' : ((s.data.dropWhile p).reverse.dropWhile p).reverse.getLast? = some c := hc
  rw [List.getLast?_reverse] at hc'
  exact head?_dropWhile_false p _ c hc'

lemma pyStripChars_head (p : Char → Bool) (s : String) :
    ∀ c, (pyStripChars p s).data.head? = some c → p c = false := by
  intro c hc
  have hc' : (dropEndWhile p (s.data.dropWhile p)).head? = some c := hc
  have hx := (dropEndWhile_spec p (s.data.dropWhile p)).1
  have hx' : (s.data.dropWhile p).head? = some c := by
    conv_lhs => rw [hx]
    rw [List.head?_append, hc']
    rfl
  exact head?_dropWhile_false p s.data c hx'

lemma head?_quote_wrap (a b : Nat) (m : List Char) :
    ∀ c, (List.replicate a '"' ++ m ++ List.replicate b '"').head? = some c →
      c = '"' ∨ m.head? = some c := by
  intro c hc
  rw [List.head?_append, List.head?_append, List.head?_replicate, List.head?_replicate] at hc
  by_cases ha : a = 0
  · rw [if_pos ha, Option.none_or] at hc
    cases m with
    | nil =>
      simp only [List.head?_nil, Option.none_or] at hc
      by_cases hb : b = 0
      · rw [if_pos hb] at hc
        cases hc
      · rw [if_neg hb] at hc
        exact Or.inl (Option.some.inj hc).symm
    | cons x xs =>
      simp only [List.head?_cons, Option.or_some] at hc
      exact Or.inr (by rw [List.head?_cons]; exact hc)
  · rw [if_neg ha] at hc
    exact Or.inl (Option.some.inj hc).symm

lemma getLast?_quote_wrap (a b : Nat) (m : List Char) :
    ∀ c, (List.replicate a '"' ++ m ++ List.replicate b '"').getLast? = some c →
      c = '"' ∨ m.getLast? = some c := by
  intro c hc
  rw [← List.head?_reverse] at hc
  have hrev : (List.replicate a '"' ++ m ++ List.replicate b '"').reverse
      = List.replicate b '"' ++ m.reverse ++ List.replicate a '"' := by
    simp [List.reverse_append]
  rw [hrev] at hc
  rcases head?_quote_wrap b a m.reverse c hc with h | h
  · exact Or.inl h
  · right
    rw [← List.head?_reverse]
    exact h

/-- C6 (amended): the dispatch value `target.strip().strip('"').strip()`
removes EVERY leading and trailing double-quote character, not one layer: for
any core string with quote-free, space-free boundary, wrapping it in any
numbers of quotes on either side unquotes back to the core itself. -/
theorem unquote_strips_all_quote_layers (s : String) (a b : Nat)
    (hh : ∀ c, s.data.head? = some c → isPySpace c = false ∧ c ≠ '"')
    (hl : ∀ c, s.data.getLast? = some c → isPySpace c = false ∧ c ≠ '"') :
    unquote (String.mk (List.replicate a '"') ++ s ++ String.mk (List.replicate b '"')) = s := by
  have hX : (String.mk (List.replicate a '"') ++ s ++ String.mk (List.replicate b '"')).data
      = List.replicate a '"' ++ s.data ++ List.replicate b '"' := by
    rw [String.data_append, String.data_append]
  have hws_head : ∀ c,
      (List.replicate a '"' ++ s.data ++ List.replicate b '"').head? = some c →
        isPySpace c = false := by
    intro c hc
    rcases head?_quote_wrap a b s.data c hc with rfl | h
    · decide
    · exact (hh c h).1
  have hws_last : ∀ c,
      (List.replicate a '"' ++ s.data ++ List.replicate b '"').getLast? = some c →
        isPySpace c = false := by
    intro c hc
    rcases getLast?_quote_wrap a b s.data c hc with rfl | h
    · decide
    · exact (hl c h).1
  have h1 : pyStripWs (String.mk (List.replicate a '"') ++ s ++ String.mk (List.replicate b '"'))
      = String.mk (List.replicate a '"') ++ s ++ String.mk (List.replicate b '"') := by
    apply String.ext
    show dropEndWhile isPySpace
        ((String.mk (List.replicate a '"') ++ s ++ String.mk (List.replicate b '"')).data.dropWhile isPySpace) = _
    rw [hX, dropWhile_eq_self_of_head? hws_head]
    unfold dropEndWhile
    rw [dropWhile_eq_self_of_head? (fun c hc => hws_last c (List.head?_reverse _ ▸ hc)),
      List.reverse_reverse]
  have hq : ∀ x ∈ List.replicate a '"', (x = '"' : Bool) = true := by
    intro x hx
    have := List.eq_of_mem_replicate hx
    subst this
    decide
  by_cases hs0 : s.data = []
  · have h2 : pyStripQuotes
        (String.mk (List.replicate a '"') ++ s ++ String.mk (List.replicate b '"')) = s := by
      apply String.ext
      show dropEndWhile (fun c => c = '"')
          ((String.mk (List.replicate a '"') ++ s ++ String.mk (List.replicate b '"')).data.dropWhile
            (fun c => c = '"')) = _
      rw [hX]
      have hall : ∀ x ∈ List.replicate a '"' ++ s.data ++ List.replicate b '"',
          (x = '"' : Bool) = true := by
        intro x hx
        rw [hs0] at hx
        simp only [List.append_nil, List.nil_append] at hx
        rcases List.mem_append.mp hx with h | h
        · exact hq x h
        · have := List.eq_of_mem_replicate h
          subst this
          decide
      rw [List.dropWhile_eq_nil_iff.mpr hall]
      rw [hs0]
      rfl
    have h3 : pyStripWs s = s := by
      apply String.ext
      show dropEndWhile isPySpace (s.data.dropWhile isPySpace) = _
      rw [hs0]
      rfl
    unfold unquote
    rw [h1, h2, h3]
  · have h2 : pyStripQuotes
        (String.mk (List.replicate a '"') ++ s ++ String.mk (List.replicate b '"')) = s := by
      apply String.ext
      show dropEndWhile (fun c => c = '"')
          ((String.mk (List.replicate a '"') ++ s ++ String.mk (List.replicate b '"')).data.dropWhile
            (fun c => c = '"')) = _
      rw [hX, List.append_assoc, List.dropWhile_append_of_pos hq]
      have hqhead : ∀ c, (s.data ++ List.replicate b '"').head? = some c →
          ((c = '"' : Bool)) = false := by
        intro c hc
        rw [List.head?_append] at hc
        cases hm : s.data.head? with
        | none => exact absurd (List.head?_eq_none_iff.mp hm) hs0
        | some x =>
          rw [hm, Option.or_some] at hc
          have hx := Option.some.inj hc
          subst hx
          simpa using (hh x hm).2
      rw [dropWhile_eq_self_of_head? hqhead]
      unfold dropEndWhile
      have hrev : (s.data ++ List.replicate b '"').reverse
          = List.replicate b '"' ++ s.data.reverse := by
        simp [List.reverse_append]
      rw [hrev, List.dropWhile_append_of_pos (by
        intro x hx
        have := List.eq_of_mem_replicate hx
        subst this
        decide)]
      have hqlast : ∀ c, s.data.reverse.head? = some c → ((c = '"' : Bool)) = false := by
        intro c hc
        rw [List.head?_reverse] at hc
        simpa using (hl c hc).2
      rw [dropWhile_eq_self_of_head? hqlast, List.reverse_reverse]
    have h3 : pyStripWs s = s := by
      apply String.ext
      show dropEndWhile isPySpace (s.data.dropWhile isPySpace) = _
      rw [dropWhile_eq_self_of_head? (fun c hc => (hh c hc).1)]
      unfold dropEndWhile
      rw [dropWhile_eq_self_of_head?
        (fun c hc => (hl c (List.head?_reverse _ ▸ hc)).1), List.reverse_reverse]
    unfold unquote
    rw [h1, h2, h3]

/-- Witness for C6's amended theorem: a doubled-quoted core loses all four
quote characters. -/
theorem unquote_strips_all_quote_layers_inst :
    unquote (String.mk (List.replicate 2 '"') ++ "abc" ++ String.mk (List.replicate 2 '"'))
      = "abc" :=
  unquote_strips_all_quote_layers "abc" 2 2
    (fun c hc => by
      have h' : some 'a' = some c := hc
      cases Option.some.inj h'
      exact ⟨by decide, by decide⟩)
    (fun c hc => by
      have h' : some 'c' = some c := hc
      cases Option.some.inj h'
      exact ⟨by decide, by decide⟩)

/-- C6 counterexample: on the raw TXT value `""v=spf1""` the code's unquoting
erases both quote layers, so the SPF rule fires and the parser emits the `SPF`
placeholder edge; under the claimed one-layer stripping the value would still
start with a quote and the SPF rule would NOT match. -/
theorem one_quote_layer_cex :
    read_row "d" "txt" "\"\"v=spf1\"\"" =
      .ok [⟨"d", "SPF", "txt", none, some "v=spf1"⟩] ∧
    unquote_one "\"\"v=spf1\"\"" = "\"v=spf1\"" ∧
    strStartsWith (strLower (unquote_one "\"\"v=spf1\"\"")) "v=spf1" = false ∧
    unquote "\"\"v=spf1\"\"" = "v=spf1" :=
  ⟨rfl, by decide, by decide, by decide⟩

/-- A stripped target containing a space splits under `split(maxsplit=1)` into
exactly two parts (which is why the code's `parts[1]` can never raise). -/
lemma pySplitMax1_stripped (t : String)
    (hsp : strHasChar (pyStripWs t) ' ' = true) :
    pySplitMax1 (pyStripWs t) =
      [String.mk ((pyStripWs t).data.takeWhile (fun c => !(isPySpace c))),
       String.mk (((pyStripWs t).data.dropWhile (fun c => !(isPySpace c))).dropWhile isPySpace)] := by
  have hmem : (' ' : Char) ∈ (pyStripWs t).data := List.elem_iff.mp hsp
  have hne : (pyStripWs t).data ≠ [] := fun h => by
    rw [h] at hmem
    cases hmem
  have hdw : (pyStripWs t).data.dropWhile isPySpace = (pyStripWs t).data :=
    dropWhile_eq_self_of_head? (pyStripChars_head isPySpace t)
  have hmem_after : (' ' : Char) ∈ (pyStripWs t).data.dropWhile (fun c => !(isPySpace c)) := by
    have hsplit := List.takeWhile_append_dropWhile (fun c => !(isPySpace c)) (pyStripWs t).data
    rcases List.mem_append.mp (by rw [hsplit]; exact hmem) with h | h
    · exact absurd (List.mem_takeWhile_imp h) (by decide)
    · exact h
  have hafter_ne : (pyStripWs t).data.dropWhile (fun c => !(isPySpace c)) ≠ [] := fun h => by
    rw [h] at hmem_after
    cases hmem_after
  have hrest_ne :
      (((pyStripWs t).data.dropWhile (fun c => !(isPySpace c))).dropWhile isPySpace) ≠ [] := by
    intro hnil
    have hall := List.dropWhile_eq_nil_iff.mp hnil
    obtain ⟨y, hy⟩ :
        ∃ y, ((pyStripWs t).data.dropWhile (fun c => !(isPySpace c))).getLast? = some y := by
      cases hgl : ((pyStripWs t).data.dropWhile (fun c => !(isPySpace c))).getLast? with
      | none => exact absurd (List.getLast?_eq_none_iff.mp hgl) hafter_ne
      | some y => exact ⟨y, rfl⟩
    have hy_mem : y ∈ (pyStripWs t).data.dropWhile (fun c => !(isPySpace c)) := by
      obtain ⟨ys, hys⟩ := List.getLast?_eq_some_iff.mp hy
      rw [hys]
      simp
    have hy_ws : isPySpace y = true := hall y hy_mem
    have hlast_str : (pyStripWs t).data.getLast? = some y := by
      conv_lhs =>
        rw [← List.takeWhile_append_dropWhile (fun c => !(isPySpace c)) (pyStripWs t).data]
      rw [List.getLast?_append, hy]
      rfl
    have hcontra := pyStripChars_last isPySpace t y hlast_str
    rw [hy_ws] at hcontra
    cases hcontra
  have h1 : (pyStripWs t).data.isEmpty = false := by
    rw [List.isEmpty_eq_false]
    exact hne
  have h2 : ((((pyStripWs t).data.dropWhile (fun c => !(isPySpace c))).dropWhile
      isPySpace)).isEmpty = false := by
    rw [List.isEmpty_eq_false]
    exact hrest_ne
  simp only [pySplitMax1, hdw, h1, h2, Bool.false_eq_true, if_false]

/-- C8 (amended): an MX record whose target contains a space is split with
Python `split(maxsplit=1)` semantics — at the first WHITESPACE run, not
literally at the first space — the first token becoming the priority and the
lower-cased remainder (trailing-dot-normalized) the hostname. -/
theorem mx_split_rule (d r t : String)
    (hr : strLower (pyStripWs r) = "mx")
    (hsp : strHasChar (pyStripWs t) ' ' = true) :
    read_row d r t =
      .ok [⟨pyStripWs d,
            strip_trailing (strLower (pyStripWs (pyTok1 (pyStripWs t)))),
            "mx", some (pyStripWs (pyTok0 (pyStripWs t))), none⟩] := by
  have hsplit := pySplitMax1_stripped t hsp
  have h0 : pyTok0 (pyStripWs t)
      = String.mk ((pyStripWs t).data.takeWhile (fun c => !(isPySpace c))) := by
    rw [pyTok0, hsplit]
    rfl
  have h1 : pyTok1 (pyStripWs t)
      = String.mk (((pyStripWs t).data.dropWhile (fun c => !(isPySpace c))).dropWhile isPySpace) := by
    rw [pyTok1, hsplit]
    rfl
  simp only [read_row, hr, hsp, hsplit, h0, h1]
  simp

/-- Witness for C8's amended theorem at the spec's example input. -/
theorem mx_split_rule_inst :
    read_row "x" "mx" "10 mail.example.com" =
      .ok [⟨"x", "mail.example.com", "mx", some "10", none⟩] :=
  (mx_split_rule "x" "mx" "10 mail.example.com" (by decide) (by decide)).trans rfl

/-- C8 counterexample: the target `"10\t20 mail.example.com"` contains a
space, but the code splits at the TAB (the first whitespace), yielding
priority `"10"`, not the claimed left-of-first-space token `"10\t20"`. -/
theorem mx_first_space_cex :
    read_row "x" "mx" "10\t20 mail.example.com" =
      .ok [⟨"x", "20 mail.example.com", "mx", some "10", none⟩] ∧
    (splitFirstSpace "10\t20 mail.example.com").1 = "10\t20" ∧
    ("10" : String) ≠ "10\t20" :=
  ⟨rfl, by decide, by decide⟩

end OsintViz
